import Mathlib

/-! Verification of whichpr: resolving the pull request of a commit.

A shallow embedding of `main.go`.  A Go string is a Lean string (a text in
UTF-8) and `len` is its length in bytes.  The three patterns of the program
use ASCII literals and the ASCII classes `\d`, `\w` and `[a-f0-9]` only, so
matching character by character is matching as Go's `regexp` does.  The
collaborators of the program (the `git` executable reached through `os/exec`,
the construction of the API client, the issue search of the hosting service)
are the fields of a `World`; every function returns its result together with
the list of the external calls it issued, in order.
-/

set_option autoImplicit false

namespace Whichpr

/-! ## Errors, outcomes, external calls -/

/-- The `error` values the program creates or passes on. -/
inductive GoError where
  /-- `*ErrorMessage`, carrying its `message` field. -/
  | errorMessage (message : String)
  /-- `errors.New`, `fmt.Errorf`, `errors.Errorf`: an error with a text. -/
  | text (msg : String)
  /-- `*strconv.NumError` of function `fn` on input `num`. -/
  | numError (fn : String) (num : String) (why : String)
  /-- An error produced by a collaborator (`os/exec`, the API client). -/
  | external (msg : String)
  deriving DecidableEq, Repr

/-- What a Go call of result type `(α, error)` does: it returns a value with a
nil error, returns a non-nil error, or panics at run time. -/
inductive Outcome (α : Type) where
  | ok (v : α)
  | err (e : GoError)
  | panic (msg : String)
  deriving DecidableEq, Repr

/-- One external call: a process run with `exec.Command(name, args...).Output()`,
the construction of the API client, or `client.Search.Issues` with a query. -/
inductive Call where
  | exec (name : String) (args : List String)
  | apiClient
  | searchIssues (query : String)
  deriving DecidableEq, Repr

/-- The part of `api.Issue` the program reads: `Number *int` (`none` is nil). -/
structure Issue where
  Number : Option Int
  deriving DecidableEq, Repr

/-- The part of `github.Project` the program reads; `prj.String()` is
`Owner/Name`. -/
structure Project where
  Owner : String
  Name : String
  deriving DecidableEq, Repr

/-- `prj.String()`. -/
def Project.String (prj : Project) : String :=
  prj.Owner ++ "/" ++ prj.Name

/-- The collaborators.  `exec name args` is what
`exec.Command(name, args...).Output()` gives: the standard output when the
process succeeds, an error otherwise (every caller drops the output that comes
with an error).  `apiClient` is whether `APIClient()` succeeds,
`searchIssues q` the issues of `client.Search.Issues(ctx, q, nil)`. -/
structure World where
  exec : String → List String → Except GoError String
  apiClient : Except GoError Unit
  searchIssues : String → Except GoError (List Issue)

/-! ## Strings -/

/-- Go's `len` on a string: its length in bytes. -/
def len (s : String) : Nat := s.utf8ByteSize

/-- `strings.HasPrefix(s, pre)`. -/
def HasPrefix (s pre : String) : Bool :=
  pre.data.isPrefixOf s.data

/-- Splitting a character list at every occurrence of `sep`. -/
def splitChars (sep : Char) : List Char → List (List Char)
  | [] => [[]]
  | c :: cs =>
    if c = sep then [] :: splitChars sep cs
    else
      match splitChars sep cs with
      | [] => [[c]]
      | l :: ls => (c :: l) :: ls

/-- `strings.Split(s, sep)` for a separator of one character. -/
def Split (s : String) (sep : Char) : List String :=
  (splitChars sep s.data).map String.mk

/-- The value of a run of decimal digits. -/
def decimalValue (ds : List Char) : Nat :=
  ds.foldl (fun n ch => n * 10 + (ch.toNat - '0'.toNat)) 0

/-- The class `\d` of Go's regexp: ASCII digits. -/
def isDigit (c : Char) : Bool := decide ('0' ≤ c ∧ c ≤ '9')

/-- The class `[a-f0-9]`. -/
def isHexLower (c : Char) : Bool :=
  decide ('a' ≤ c ∧ c ≤ 'f') || decide ('0' ≤ c ∧ c ≤ '9')

/-- The class `\w` of Go's regexp: `[0-9A-Za-z_]`. -/
def isWord (c : Char) : Bool :=
  decide ('0' ≤ c ∧ c ≤ '9') || decide ('A' ≤ c ∧ c ≤ 'Z') ||
    decide ('a' ≤ c ∧ c ≤ 'z') || decide (c = '_')

/-- The largest value of Go's `int` (64 bits). -/
def maxInt : Nat := 2 ^ 63 - 1

/-- `strconv.Atoi(s)`, from the Go standard library: an optional sign, then
one or more decimal digits; a syntax error otherwise, a range error when the
value does not fit `int`. -/
def Atoi (s : String) : Outcome Int :=
  let signed : Bool × List Char :=
    match s.data with
    | '-' :: r => (true, r)
    | '+' :: r => (false, r)
    | r => (false, r)
  let ds := signed.2
  if ds = [] ∨ ds.all isDigit = false then
    .err (.numError "Atoi" s "invalid syntax")
  else if signed.1 then
    if decimalValue ds ≤ maxInt + 1 then .ok (- (decimalValue ds : Int))
    else .err (.numError "Atoi" s "value out of range")
  else
    if decimalValue ds ≤ maxInt then .ok (decimalValue ds : Int)
    else .err (.numError "Atoi" s "value out of range")

/-! ## The regular expressions

The three patterns of the program are sequences of literal characters and of
greedy `+` repetitions of a character class, with at most one capturing group
(around one repetition), `^` in front and `$` at the end.  They are matched the
way Go's `regexp` chooses a match: the leftmost start, and from there what a
backtracking search finds first. -/

/-- One item of a pattern. -/
inductive Atom where
  /-- A literal character. -/
  | chr (c : Char)
  /-- `cls+`, greedy; `capture` says that it is group 1, `(cls+)`. -/
  | plus (cls : Char → Bool) (capture : Bool)
  /-- `$`: the end of the text. -/
  | eot

/-- A compiled pattern: whether it starts with `^`, and its items. -/
structure Regexp where
  anchored : Bool
  atoms : List Atom

/-- The literal characters of a string, as pattern items. -/
def lits (s : String) : List Atom := s.data.map Atom.chr

/-- Greedy `cls+` followed by the rest of the pattern `k`: with `acc` already
taken, take one more character of the class, then as many more as lets `k`
succeed, trying longer runs first. -/
def plusLoop {ρ : Type} (cls : Char → Bool) (k : List Char → List Char → Option ρ)
    (acc : List Char) : List Char → Option ρ
  | [] => none
  | c :: cs =>
    if cls c then
      match plusLoop cls k (acc ++ [c]) cs with
      | some r => some r
      | none => k (acc ++ [c]) cs
    else none

/-- Match the items at the start of the text; on success the text of group 1
(`cap` when no group was met) and the unread rest of the text. -/
def matchHere : List Atom → List Char → List Char → Option (List Char × List Char)
  | [], cap, s => some (cap, s)
  | .chr c :: rest, cap, s =>
    match s with
    | [] => none
    | d :: ds => if d = c then matchHere rest cap ds else none
  | .eot :: rest, cap, s =>
    match s with
    | [] => matchHere rest cap []
    | _ :: _ => none
  | .plus cls capture :: rest, cap, s =>
    plusLoop cls (fun taken s1 => matchHere rest (if capture then taken else cap) s1) [] s

/-- The submatches `[whole match, group 1]` of a match that starts at the
first character of `s`. -/
def submatchHere (atoms : List Atom) (s : List Char) : Option (List String) :=
  match matchHere atoms [] s with
  | none => none
  | some (cap, rest) => some [String.mk (s.take (s.length - rest.length)), String.mk cap]

/-- The leftmost match of an unanchored pattern. -/
def findFrom (atoms : List Atom) : List Char → Option (List String)
  | [] => submatchHere atoms []
  | c :: cs =>
    match submatchHere atoms (c :: cs) with
    | some m => some m
    | none => findFrom atoms cs

/-- `re.FindStringSubmatch(s)`: nil (the empty slice) without a match. -/
def Regexp.FindStringSubmatch (re : Regexp) (s : String) : List String :=
  match (if re.anchored then submatchHere re.atoms s.data else findFrom re.atoms s.data) with
  | none => []
  | some m => m

/-- `re.MatchString(s)`. -/
def Regexp.MatchString (re : Regexp) (s : String) : Bool :=
  (if re.anchored then submatchHere re.atoms s.data else findFrom re.atoms s.data).isSome

/-- The pattern `\(\#(\d+)\)$` of `SquashedPullReqNum`. -/
def squashRe : Regexp :=
  ⟨false, [.chr '(', .chr '#', .plus isDigit true, .chr ')', .eot]⟩

/-- The pattern `^(?:[a-f0-9]+ ){2}Merge pull request \#(\d+) from ` of
`MergedPullRequestNum`. -/
def mergeRe : Regexp :=
  ⟨true, [.plus isHexLower false, .chr ' ', .plus isHexLower false, .chr ' ']
    ++ lits "Merge pull request #" ++ [.plus isDigit true] ++ lits " from "⟩

/-- The pattern `\w+ (\w+) ` of `MergedPullRequestNum`. -/
def parentRe : Regexp :=
  ⟨false, [.plus isWord false, .chr ' ', .plus isWord true, .chr ' ']⟩

/-! ## The program -/

/-- The constant `Usage`. -/
def Usage : String := "Usage:\n\twhichpr show|open SHA1\n\twhichpr version\n"

/-- `NewErrorMessage(message)`. -/
def NewErrorMessage (message : String) : GoError :=
  if message = "" then .errorMessage Usage
  else .errorMessage (Usage ++ "\n" ++ message)

/-- `findRegexp(arr, re)`: the first string of `arr` that `re` matches. -/
def findRegexp (arr : List String) (re : Regexp) : Except GoError String :=
  match arr with
  | [] => .error (.text "Missing")
  | str :: more => if re.MatchString str then .ok str else findRegexp more re

/-- `isParent(parent, child)`, with the calls it issued. -/
def isParent (w : World) (parent child : String) : Bool × List Call :=
  if HasPrefix child parent then (true, [])
  else
    let args := ["log", "--ancestry-path", parent ++ ".." ++ child]
    match w.exec "git" args with
    | .error _ => (false, [.exec "git" args])
    | .ok b => (decide (len b ≠ 0), [.exec "git" args])

/-- `SquashedPullReqNum(sha1)`, with the calls it issued. -/
def SquashedPullReqNum (w : World) (sha1 : String) : Outcome Int × List Call :=
  let args := ["log", "--pretty=format:%s", "-n", "1", sha1]
  match w.exec "git" args with
  | .error e => (.err e, [.exec "git" args])
  | .ok out =>
    match (Split out '\n')[0]? with
    | none => (.panic "index out of range", [.exec "git" args])
    | some msg =>
      let m := squashRe.FindStringSubmatch msg
      if m.length = 0 then (.err (.text "Does not match"), [.exec "git" args])
      else
        match m[1]? with
        | none => (.panic "index out of range", [.exec "git" args])
        | some digits => (Atoi digits, [.exec "git" args])

/-- `MergedPullRequestNum(sha1)`, with the calls it issued. -/
def MergedPullRequestNum (w : World) (sha1 : String) : Outcome Int × List Call :=
  let args := ["log", "--merges", "--pretty=format:%P %s", "--reverse", "--ancestry-path",
    sha1 ++ "..@"]
  match w.exec "git" args with
  | .error e => (.err e, [.exec "git" args])
  | .ok out =>
    let msgs := Split out '\n'
    match findRegexp msgs mergeRe with
    | .error e => (.err e, [.exec "git" args])
    | .ok mergeCommit =>
      match (mergeRe.FindStringSubmatch mergeCommit)[1]? with
      | none => (.panic "index out of range", [.exec "git" args])
      | some pr =>
        match (parentRe.FindStringSubmatch mergeCommit)[1]? with
        | none => (.panic "index out of range", [.exec "git" args])
        | some second =>
          if (isParent w sha1 second).1 then
            (Atoi pr, .exec "git" args :: (isParent w sha1 second).2)
          else
            (.err (.text (sha1 ++ " is not parent")),
              .exec "git" args :: (isParent w sha1 second).2)

/-- `PullRequestNumber(prj, sha1)`, with the calls it issued. -/
def PullRequestNumber (w : World) (prj : Project) (sha1 : String) :
    Outcome Int × List Call :=
  if len sha1 < 7 then
    (.err (NewErrorMessage "SHA1 must be at least seven characters"), [])
  else
    match SquashedPullReqNum w sha1 with
    | (.ok pr, t1) => (.ok pr, t1)
    | (.panic m, t1) => (.panic m, t1)
    | (.err _, t1) =>
      match MergedPullRequestNum w sha1 with
      | (.ok pr, t2) => (.ok pr, t1 ++ t2)
      | (.panic m, t2) => (.panic m, t1 ++ t2)
      | (.err _, t2) =>
        let repo := prj.String
        match w.apiClient with
        | .error e => (.err e, t1 ++ t2 ++ [.apiClient])
        | .ok _ =>
          let query := sha1 ++ " is:merged repo:" ++ repo
          match w.searchIssues query with
          | .error e => (.err e, t1 ++ t2 ++ [.apiClient, .searchIssues query])
          | .ok issues =>
            if issues.length = 0 then
              (.err (.text "Pull Request is not found"),
                t1 ++ t2 ++ [.apiClient, .searchIssues query])
            else
              match issues[0]? with
              | none => (.panic "index out of range",
                  t1 ++ t2 ++ [.apiClient, .searchIssues query])
              | some issue =>
                match issue.Number with
                | none => (.panic "nil pointer dereference",
                    t1 ++ t2 ++ [.apiClient, .searchIssues query])
                | some n => (.ok n, t1 ++ t2 ++ [.apiClient, .searchIssues query])

/-! ## Names for the external calls -/

/-- The subject query of `SquashedPullReqNum`. -/
def subjectQuery (sha1 : String) : Call :=
  .exec "git" ["log", "--pretty=format:%s", "-n", "1", sha1]

/-- The merge-history query of `MergedPullRequestNum`. -/
def mergesQuery (sha1 : String) : Call :=
  .exec "git" ["log", "--merges", "--pretty=format:%P %s", "--reverse", "--ancestry-path",
    sha1 ++ "..@"]

/-- The ancestry query of `isParent` for `parent..child`. -/
def ancestryQuery (parent child : String) : Call :=
  .exec "git" ["log", "--ancestry-path", parent ++ ".." ++ child]

/-- The text of the search query. -/
def searchText (prj : Project) (sha1 : String) : String :=
  sha1 ++ " is:merged repo:" ++ prj.Owner ++ "/" ++ prj.Name

/-- Whether a call is a search. -/
def Call.isSearch : Call → Bool
  | .searchIssues _ => true
  | _ => false

/-- Whether a call is the construction of the API client or a search. -/
def Call.isRemote : Call → Bool
  | .exec _ _ => false
  | _ => true

/-- The first line of an output. -/
def firstLine (out : String) : String :=
  String.mk (out.data.takeWhile (fun c => decide (c ≠ '\n')))

/-- The subject `s` ends with the squash marker `(#ds)`: `(#`, the one or
more decimal digits `ds`, and `)` as its final characters. -/
def SquashMarker (s ds : String) : Prop :=
  ∃ pre : String, s = pre ++ "(#" ++ ds ++ ")" ∧ ds ≠ "" ∧ ∀ c ∈ ds.data, isDigit c = true

/-- The line is `p1 p2 Merge pull request #ds from rest`: two parent hashes
in lower-case hexadecimal, each followed by one space, then the subject of a
pull request merge with the digits `ds`. -/
def MergeLine (line p1 p2 ds rest : String) : Prop :=
  line = p1 ++ " " ++ p2 ++ " Merge pull request #" ++ ds ++ " from " ++ rest ∧
  p1 ≠ "" ∧ (∀ c ∈ p1.data, isHexLower c = true) ∧
  p2 ≠ "" ∧ (∀ c ∈ p2.data, isHexLower c = true) ∧
  ds ≠ "" ∧ (∀ c ∈ ds.data, isDigit c = true)

/-- The earliest line of a listing that has the shape of a pull request
merge. -/
def FirstMergeLine (lines : List String) (line : String) : Prop :=
  ∃ pre post, lines = pre ++ line :: post ∧
    (∀ x ∈ pre, ¬ ∃ p1 p2 ds rest, MergeLine x p1 p2 ds rest) ∧
    ∃ p1 p2 ds rest, MergeLine line p1 p2 ds rest

/-! ## Scripted worlds for the examples -/

/-- A world in which every collaborator fails. -/
def deadWorld : World :=
  ⟨fun _ _ => .error (.external "exit status 128"), .error (.external "no client"),
    fun _ => .error (.external "no network")⟩

/-- A world in which `git` answers the listed argument lists with the listed
outputs and fails on every other one, the API client is built when `client`
is set, and the search answers the listed queries. -/
def scripted (git : List (List String × String)) (client : Bool)
    (search : List (String × List Issue)) : World :=
  ⟨fun name args =>
      if name = "git" then
        match git.lookup args with
        | some out => .ok out
        | none => .error (.external "exit status 128")
      else .error (.external "executable file not found"),
    if client then .ok () else .error (.external "no client"),
    fun q =>
      match search.lookup q with
      | some issues => .ok issues
      | none => .error (.external "no network")⟩

/-- A world whose subject query for `abc1234` prints `subject`; everything
else fails. -/
def squashWorld (subject : String) : World :=
  scripted [(["log", "--pretty=format:%s", "-n", "1", "abc1234"], subject)] false []

/-- A world whose merge history after `abc1234` lists two pull request merges,
oldest first: `abc1234` is not an ancestor of the second parent `bbb` of the
first (the ancestry query prints nothing) and is an ancestor of the second
parent `ddd` of the second. -/
def twoMergesWorld : World :=
  scripted
    [(["log", "--merges", "--pretty=format:%P %s", "--reverse", "--ancestry-path", "abc1234..@"],
        "aaa bbb Merge pull request #1 from u/x\nccc ddd Merge pull request #2 from u/y"),
      (["log", "--ancestry-path", "abc1234..bbb"], ""),
      (["log", "--ancestry-path", "abc1234..ddd"], "commit ddd")]
    false []

/-- A world whose merge history after `def5678` lists one pull request merge
whose second parent `bbb` has `def5678` as an ancestor. -/
def oneMergeWorld : World :=
  scripted
    [(["log", "--merges", "--pretty=format:%P %s", "--reverse", "--ancestry-path", "def5678..@"],
        "aaa bbb Merge pull request #99 from user/branch"),
      (["log", "--ancestry-path", "def5678..bbb"], "commit bbb")]
    false []

/-! ## Strings and the ancestry checker -/

theorem len_eq_zero_iff (b : String) : len b = 0 ↔ b = "" := by
  obtain ⟨cs⟩ := b
  cases cs with
  | nil => simp [len, String.utf8ByteSize, String.utf8ByteSize.go]
  | cons c cs =>
    have := Char.utf8Size_pos c
    simp [len, String.utf8ByteSize, String.utf8ByteSize.go, String.ext_iff]
    omega

/-- On identifiers made of ASCII characters, as commit hashes are, the length
in bytes is the number of characters. -/
theorem len_eq_length_of_ascii (s : String) (h : ∀ c ∈ s.data, c.toNat < 128) :
    len s = s.length := by
  obtain ⟨cs⟩ := s
  simp only [len, String.utf8ByteSize, String.length]
  induction cs with
  | nil => rfl
  | cons c cs ih =>
    have hc : c.utf8Size = 1 := by
      have := h c (by simp)
      simp only [Char.utf8Size]
      have h1 : c.val ≤ 127 := by
        rw [UInt32.le_def]
        simp only [Char.toNat] at this
        show c.val.toNat ≤ 127
        omega
      simp [h1]
    simp only [String.utf8ByteSize.go, hc, List.length_cons]
    rw [ih (fun d hd => h d (by simp [hd]))]

theorem hasPrefix_iff (s pre : String) :
    HasPrefix s pre = true ↔ ∃ t : String, s = pre ++ t := by
  unfold HasPrefix
  rw [List.isPrefixOf_iff_prefix]
  constructor
  · rintro ⟨t, ht⟩
    exact ⟨⟨t⟩, String.ext (by simp [ht])⟩
  · rintro ⟨t, rfl⟩
    exact ⟨t.data, by simp⟩

theorem hasPrefix_eq_false (s pre : String) (h : ¬ ∃ t : String, s = pre ++ t) :
    HasPrefix s pre = false := by
  rcases hb : HasPrefix s pre with _ | _
  · rfl
  · exact absurd ((hasPrefix_iff s pre).1 hb) h

/-! ## The ancestry checker -/

/-- C6: `isParent parent child` is true without any call whenever `child`
textually starts with `parent`, so `isParent A A` is true; when `child` does
not start with `parent` it issues the ancestry query for `parent..child` and
is true exactly when that query yields a non-empty output, false when the
query fails or its output is empty. -/
theorem isParent_fast_path_and_general_path (w : World) (parent child : String) :
    ((∃ t : String, child = parent ++ t) → isParent w parent child = (true, [])) ∧
    isParent w parent parent = (true, []) ∧
    ((¬ ∃ t : String, child = parent ++ t) →
      (isParent w parent child).2 = [ancestryQuery parent child] ∧
      ((isParent w parent child).1 = true ↔
        ∃ out, w.exec "git" ["log", "--ancestry-path", parent ++ ".." ++ child] = .ok out
          ∧ out ≠ "") ∧
      ((isParent w parent child).1 = false ↔
        (∃ e, w.exec "git" ["log", "--ancestry-path", parent ++ ".." ++ child] = .error e) ∨
        w.exec "git" ["log", "--ancestry-path", parent ++ ".." ++ child] = .ok "")) := by
  refine ⟨fun h => ?_, ?_, fun h => ?_⟩
  · have := (hasPrefix_iff child parent).2 h
    simp [isParent, this]
  · have := (hasPrefix_iff parent parent).2 ⟨"", by simp⟩
    simp [isParent, this]
  · have hp := hasPrefix_eq_false child parent h
    unfold isParent ancestryQuery
    simp only [hp]
    cases hq : w.exec "git" ["log", "--ancestry-path", parent ++ ".." ++ child] with
    | error e => simp
    | ok out => simp [len_eq_zero_iff]

/-- Witness of C6: the fast path at `abc1234`, `abc1234def`, and the general
path at `abc1234`, `def5678` in a world whose ancestry query prints a commit. -/
theorem isParent_fast_path_and_general_path_witness :
    isParent deadWorld "abc1234" "abc1234def" = (true, []) ∧
    (isParent (scripted [(["log", "--ancestry-path", "abc1234..def5678"], "commit def5678")]
      false []) "abc1234" "def5678").1 = true := by
  constructor
  · exact (isParent_fast_path_and_general_path deadWorld "abc1234" "abc1234def").1
      ⟨"def", by decide⟩
  · refine ((isParent_fast_path_and_general_path
      (scripted [(["log", "--ancestry-path", "abc1234..def5678"], "commit def5678")] false [])
      "abc1234" "def5678").2.2 ?_).2.1.2 ⟨"commit def5678", rfl, by decide⟩
    rintro ⟨t, ht⟩
    have h := congrArg (fun s => s.data.head?) ht
    simp at h

/-- C7, as stated, fails: in a world where every `git` call fails, so that the
ancestry query for `deadbeef..deadbeef` fails, `isParent` is nevertheless
true. -/
theorem isParent_failing_query_not_always_false :
    ¬ ∀ (w : World) (parent child : String) (e : GoError),
      w.exec "git" ["log", "--ancestry-path", parent ++ ".." ++ child] = .error e →
      (isParent w parent child).1 = false := by
  intro h
  have := h deadWorld "deadbeef" "deadbeef" (.external "exit status 128") rfl
  revert this
  decide

/-- C7, amended: when `child` does not textually start with `parent` and the
ancestry query fails, `isParent` is false, having issued that one query; its
result is a boolean, never an error. -/
theorem isParent_false_on_failing_query (w : World) (parent child : String) (e : GoError)
    (hpre : ¬ ∃ t : String, child = parent ++ t)
    (hq : w.exec "git" ["log", "--ancestry-path", parent ++ ".." ++ child] = .error e) :
    isParent w parent child = (false, [ancestryQuery parent child]) := by
  have hp := hasPrefix_eq_false child parent hpre
  simp [isParent, ancestryQuery, hp, hq]

/-- Witness of the amended C7 at `abc1234`, `def5678` in the world where every
call fails. -/
theorem isParent_false_on_failing_query_witness :
    isParent deadWorld "abc1234" "def5678" = (false, [ancestryQuery "abc1234" "def5678"]) := by
  refine isParent_false_on_failing_query deadWorld "abc1234" "def5678"
    (.external "exit status 128") ?_ rfl
  rintro ⟨t, ht⟩
  have h := congrArg (fun s => s.data.head?) ht
  simp at h

/-! ## The orchestrator: input validation -/

/-- C1: a commit identifier shorter than seven bytes makes `PullRequestNumber`
return the usage `ErrorMessage` with the text `SHA1 must be at least seven
characters`, and no external call is issued. -/
theorem pullRequestNumber_short_sha1 (w : World) (prj : Project) (sha1 : String)
    (h : len sha1 < 7) :
    PullRequestNumber w prj sha1 =
      (.err (NewErrorMessage "SHA1 must be at least seven characters"), []) ∧
    NewErrorMessage "SHA1 must be at least seven characters" =
      .errorMessage "Usage:\n\twhichpr show|open SHA1\n\twhichpr version\n\nSHA1 must be at least seven characters" := by
  constructor
  · simp [PullRequestNumber, h]
  · decide

/-- Witness of C1 at the six-character identifier `abc123`. -/
theorem pullRequestNumber_short_sha1_witness :
    len "abc123" < 7 ∧
    PullRequestNumber deadWorld ⟨"owner", "name"⟩ "abc123" =
      (.err (NewErrorMessage "SHA1 must be at least seven characters"), []) :=
  ⟨by decide, (pullRequestNumber_short_sha1 deadWorld ⟨"owner", "name"⟩ "abc123" (by decide)).1⟩

/-! ## The matcher -/

theorem takeWhile_append_cons_of_not (p : Char → Bool) (run : List Char) (c : Char)
    (s : List Char) (hrun : ∀ x ∈ run, p x = true) (hc : p c = false) :
    (run ++ c :: s).takeWhile p = run ∧ (run ++ c :: s).dropWhile p = c :: s := by
  induction run with
  | nil => simp [List.takeWhile, List.dropWhile, hc]
  | cons a run ih =>
    have ha : p a = true := hrun a (by simp)
    have := ih (fun x hx => hrun x (by simp [hx]))
    simp [List.takeWhile, List.dropWhile, ha, this]

theorem dropWhile_of_takeWhile_nil (p : Char → Bool) (s : List Char)
    (h : s.takeWhile p = []) : s.dropWhile p = s := by
  cases s with
  | nil => rfl
  | cons c cs =>
    by_cases hc : p c = true
    · simp [List.takeWhile, hc] at h
    · simp [List.dropWhile, hc]

/-- A greedy repetition whose continuation rejects every text that starts
with a character of the class takes the whole run of the class. -/
theorem plusLoop_eq_of_excluded {ρ : Type} (cls : Char → Bool)
    (k : List Char → List Char → Option ρ)
    (hk : ∀ t c cs, cls c = true → k t (c :: cs) = none) :
    ∀ (s acc : List Char), plusLoop cls k acc s =
      if s.takeWhile cls = [] then none else k (acc ++ s.takeWhile cls) (s.dropWhile cls) := by
  intro s
  induction s with
  | nil => intro acc; simp [plusLoop]
  | cons c cs ih =>
    intro acc
    by_cases hc : cls c = true
    · rw [plusLoop]
      simp only [hc, if_true, ih (acc ++ [c])]
      by_cases htw : cs.takeWhile cls = []
      · simp [List.takeWhile, List.dropWhile, hc, htw, dropWhile_of_takeWhile_nil cls cs htw]
      · simp only [htw, if_false]
        have hrhs : (c :: cs).takeWhile cls = c :: cs.takeWhile cls := by
          simp [List.takeWhile, hc]
        have hdw : (c :: cs).dropWhile cls = cs.dropWhile cls := by
          simp [List.dropWhile, hc]
        rw [hrhs, hdw]
        simp only [List.append_assoc, List.singleton_append, reduceCtorEq, if_false]
        cases hr : k (acc ++ c :: cs.takeWhile cls) (cs.dropWhile cls) with
        | some r => rfl
        | none =>
          cases cs with
          | nil => simp at htw
          | cons d ds =>
            have hd : cls d = true := by
              by_contra hd
              simp [List.takeWhile, hd] at htw
            simpa using hk (acc ++ [c]) d ds hd
    · simp [plusLoop, List.takeWhile, hc]

/-- A literal character at the head of the pattern. -/
theorem matchHere_chr (c : Char) (rest : List Atom) (cap s : List Char)
    (r : List Char × List Char) :
    matchHere (.chr c :: rest) cap s = some r ↔
      ∃ s1, s = c :: s1 ∧ matchHere rest cap s1 = some r := by
  cases s with
  | nil => simp [matchHere]
  | cons d ds =>
    by_cases hd : d = c
    · subst hd; simp [matchHere]
    · simp [matchHere, hd]

/-- A run of literal characters at the head of the pattern. -/
theorem matchHere_lits (l : List Char) (rest : List Atom) (cap s : List Char)
    (r : List Char × List Char) :
    matchHere (l.map Atom.chr ++ rest) cap s = some r ↔
      ∃ s1, s = l ++ s1 ∧ matchHere rest cap s1 = some r := by
  induction l generalizing s with
  | nil => simp
  | cons a l ih =>
    simp only [List.map_cons, List.cons_append, matchHere_chr, ih]
    constructor
    · rintro ⟨s1, rfl, s2, rfl, h⟩
      exact ⟨s2, rfl, h⟩
    · rintro ⟨s1, rfl, h⟩
      exact ⟨l ++ s1, rfl, s1, rfl, h⟩

/-- The end of the text. -/
theorem matchHere_eot (cap s : List Char) (r : List Char × List Char) :
    matchHere [.eot] cap s = some r ↔ s = [] ∧ r = (cap, []) := by
  cases s with
  | nil => simp [matchHere, eq_comm]
  | cons d ds => simp [matchHere]

/-- A greedy repetition followed by a literal character outside its class. -/
theorem matchHere_plus_chr (cls : Char → Bool) (capture : Bool) (c : Char)
    (rest : List Atom) (cap s : List Char) (r : List Char × List Char)
    (hc : cls c = false) :
    matchHere (.plus cls capture :: .chr c :: rest) cap s = some r ↔
      ∃ run s1, s = run ++ c :: s1 ∧ run ≠ [] ∧ (∀ x ∈ run, cls x = true) ∧
        matchHere rest (if capture then run else cap) s1 = some r := by
  rw [matchHere, plusLoop_eq_of_excluded]
  · constructor
    · intro h
      by_cases htw : s.takeWhile cls = []
      · simp [htw] at h
      · simp only [htw, if_false, List.nil_append] at h
        obtain ⟨s1, hs1, hm⟩ := (matchHere_chr _ _ _ _ _).1 h
        refine ⟨s.takeWhile cls, s1, ?_, htw, ?_, hm⟩
        · rw [← hs1, List.takeWhile_append_dropWhile]
        · intro x hx
          exact List.mem_takeWhile_imp hx
    · rintro ⟨run, s1, rfl, hne, hall, hm⟩
      obtain ⟨h1, h2⟩ := takeWhile_append_cons_of_not cls run c s1 hall hc
      rw [h1, h2]
      simp only [hne, if_false, List.nil_append]
      exact (matchHere_chr _ _ _ _ _).2 ⟨s1, rfl, hm⟩
  · intro t d ds hd
    have : d ≠ c := by
      rintro rfl
      rw [hd] at hc
      exact Bool.noConfusion hc
    simp [matchHere, this]

theorem findFrom_of_here (atoms : List Atom) (s : List Char) (m : List String)
    (h : submatchHere atoms s = some m) : findFrom atoms s = some m := by
  cases s with
  | nil => simpa [findFrom] using h
  | cons c cs => simp [findFrom, h]

theorem findFrom_some (atoms : List Atom) (s : List Char) (m : List String)
    (h : findFrom atoms s = some m) :
    ∃ pre suf, s = pre ++ suf ∧ submatchHere atoms suf = some m := by
  induction s with
  | nil => exact ⟨[], [], rfl, by simpa [findFrom] using h⟩
  | cons c cs ih =>
    rw [findFrom] at h
    cases hh : submatchHere atoms (c :: cs) with
    | some m1 =>
      rw [hh] at h
      exact ⟨[], c :: cs, rfl, by simpa [hh] using h⟩
    | none =>
      rw [hh] at h
      obtain ⟨pre, suf, hs, hm⟩ := ih h
      exact ⟨c :: pre, suf, by simp [hs], hm⟩

theorem findFrom_none (atoms : List Atom) (s : List Char)
    (h : findFrom atoms s = none) (pre suf : List Char) (hs : s = pre ++ suf) :
    submatchHere atoms suf = none := by
  induction s generalizing pre with
  | nil =>
    have : suf = [] := (List.append_eq_nil.1 hs.symm).2
    subst this
    simpa [findFrom] using h
  | cons c cs ih =>
    rw [findFrom] at h
    cases hh : submatchHere atoms (c :: cs) with
    | some m1 => rw [hh] at h; simp at h
    | none =>
      rw [hh] at h
      cases pre with
      | nil => simp at hs; rw [← hs]; exact hh
      | cons a pre =>
        simp at hs
        exact ih h pre hs.2
theorem atoi_digits (ds : List Char) (hne : ds ≠ []) (hd : ∀ c ∈ ds, isDigit c = true) :
    Atoi ⟨ds⟩ = if decimalValue ds ≤ maxInt then .ok (decimalValue ds : Int)
      else .err (.numError "Atoi" ⟨ds⟩ "value out of range") := by
  cases ds with
  | nil => exact absurd rfl hne
  | cons d ds =>
    have h1 : d ≠ '-' := by
      rintro rfl
      have := hd '-' (by simp)
      revert this; decide
    have h2 : d ≠ '+' := by
      rintro rfl
      have := hd '+' (by simp)
      revert this; decide
    have hall : (d :: ds).all isDigit = true := by
      rw [List.all_eq_true]; exact hd
    unfold Atoi
    split
    · rename_i r heq
      simp at heq; exact absurd heq.1 h1
    · rename_i r heq
      simp at heq; exact absurd heq.1 h2
    · simp [hall]

theorem squash_submatchHere (s : List Char) (m : List String) :
    submatchHere squashRe.atoms s = some m ↔
      ∃ ds, s = '(' :: '#' :: (ds ++ [')']) ∧ ds ≠ [] ∧ (∀ c ∈ ds, isDigit c = true) ∧
        m = [⟨s⟩, ⟨ds⟩] := by
  unfold submatchHere
  constructor
  · intro h
    cases hm : matchHere squashRe.atoms [] s with
    | none => rw [hm] at h; simp at h
    | some r =>
      rw [hm] at h
      simp only [squashRe, matchHere_chr] at hm
      obtain ⟨s1, rfl, s2, rfl, hm⟩ := hm
      rw [matchHere_plus_chr _ _ _ _ _ _ _ (by decide)] at hm
      obtain ⟨run, s3, rfl, hne, hall, hm⟩ := hm
      rw [matchHere_eot] at hm
      obtain ⟨rfl, rfl⟩ := hm
      refine ⟨run, rfl, hne, hall, ?_⟩
      simp only [List.length_nil, Nat.sub_zero, List.take_length] at h
      simp at h
      simp [← h]
  · rintro ⟨ds, rfl, hne, hall, rfl⟩
    have : matchHere squashRe.atoms [] ('(' :: '#' :: (ds ++ [')'])) = some (ds, []) := by
      simp only [squashRe, matchHere_chr]
      refine ⟨_, rfl, _, rfl, ?_⟩
      rw [matchHere_plus_chr _ _ _ _ _ _ _ (by decide)]
      exact ⟨ds, [], rfl, hne, hall, by simp [matchHere_eot]⟩
    rw [this]
    simp only [List.length_nil, Nat.sub_zero, List.take_length]
/-! ## The squash tier -/

theorem splitChars_head (sep : Char) (s : List Char) :
    (splitChars sep s)[0]? = some (s.takeWhile (fun c => decide (c ≠ sep))) := by
  induction s with
  | nil => simp [splitChars]
  | cons c cs ih =>
    by_cases hc : c = sep
    · simp [splitChars, hc, List.takeWhile]
    · rw [splitChars]
      simp only [hc, if_false]
      cases hsp : splitChars sep cs with
      | nil => rw [hsp] at ih; simp at ih
      | cons l ls =>
        rw [hsp] at ih
        simp at ih
        simp [List.takeWhile, hc, ih]

theorem split_head (out : String) : (Split out '\n')[0]? = some (firstLine out) := by
  unfold Split firstLine
  rw [List.getElem?_map, splitChars_head]
  rfl

theorem marker_digits_unique (pre pre1 ds ds1 : List Char)
    (hd : ∀ c ∈ ds, isDigit c = true) (hd1 : ∀ c ∈ ds1, isDigit c = true)
    (h : pre ++ '(' :: '#' :: (ds ++ [')']) = pre1 ++ '(' :: '#' :: (ds1 ++ [')'])) :
    ds = ds1 := by
  have h2 := congrArg List.reverse h
  simp only [List.reverse_append, List.reverse_cons, List.reverse_nil, List.nil_append,
    List.append_assoc, List.singleton_append, List.cons_append] at h2
  have h3 := (List.cons.inj h2).2
  have h4 := congrArg (List.takeWhile isDigit) h3
  rw [(takeWhile_append_cons_of_not isDigit ds.reverse '#' _ (by simpa using hd) (by decide)).1,
    (takeWhile_append_cons_of_not isDigit ds1.reverse '#' _ (by simpa using hd1) (by decide)).1]
    at h4
  exact List.reverse_injective h4

theorem squash_find_of_marker (msg : String) (pre ds : List Char)
    (hmsg : msg.data = pre ++ '(' :: '#' :: (ds ++ [')'])) (hne : ds ≠ [])
    (hd : ∀ c ∈ ds, isDigit c = true) :
    squashRe.FindStringSubmatch msg = [⟨'(' :: '#' :: (ds ++ [')'])⟩, ⟨ds⟩] := by
  have hhere : submatchHere squashRe.atoms ('(' :: '#' :: (ds ++ [')'])) =
      some [⟨'(' :: '#' :: (ds ++ [')'])⟩, ⟨ds⟩] :=
    (squash_submatchHere _ _).2 ⟨ds, rfl, hne, hd, rfl⟩
  unfold Regexp.FindStringSubmatch
  have hanch : squashRe.anchored = false := rfl
  simp only [hanch, Bool.false_eq_true, if_false]
  cases hf : findFrom squashRe.atoms msg.data with
  | none =>
    have := findFrom_none _ _ hf pre _ hmsg
    rw [hhere] at this
    simp at this
  | some m =>
    obtain ⟨pre1, suf, hs, hm⟩ := findFrom_some _ _ _ hf
    obtain ⟨ds1, rfl, hne1, hd1, rfl⟩ := (squash_submatchHere _ _).1 hm
    have : ds = ds1 := marker_digits_unique pre pre1 ds ds1 hd hd1 (by rw [← hmsg, hs])
    subst this
    rfl

theorem squash_find_nonempty (msg : String) (h : squashRe.FindStringSubmatch msg ≠ []) :
    ∃ pre ds, msg.data = pre ++ '(' :: '#' :: (ds ++ [')']) ∧ ds ≠ [] ∧
      (∀ c ∈ ds, isDigit c = true) := by
  unfold Regexp.FindStringSubmatch at h
  have hanch : squashRe.anchored = false := rfl
  simp only [hanch, Bool.false_eq_true, if_false] at h
  cases hf : findFrom squashRe.atoms msg.data with
  | none => rw [hf] at h; exact absurd rfl h
  | some m =>
    obtain ⟨pre1, suf, hs, hm⟩ := findFrom_some _ _ _ hf
    obtain ⟨ds1, rfl, hne1, hd1, rfl⟩ := (squash_submatchHere _ _).1 hm
    exact ⟨pre1, ds1, hs, hne1, hd1⟩

theorem squashMarker_iff (s ds : String) :
    SquashMarker s ds ↔ ∃ pre, s.data = pre ++ '(' :: '#' :: (ds.data ++ [')']) ∧
      ds.data ≠ [] ∧ ∀ c ∈ ds.data, isDigit c = true := by
  unfold SquashMarker
  constructor
  · rintro ⟨pre, rfl, hne, hd⟩
    refine ⟨pre.data, ?_, ?_, hd⟩
    · simp [String.data_append]
    · intro h
      exact hne (String.ext h)
  · rintro ⟨pre, hs, hne, hd⟩
    refine ⟨⟨pre⟩, String.ext ?_, ?_, hd⟩
    · rw [hs]
      simp [String.data_append]
    · rintro rfl
      exact hne rfl

/-- What the squash tier returns on the output `out` of the subject query. -/
theorem squashed_of_output (w : World) (sha1 out : String)
    (h : w.exec "git" ["log", "--pretty=format:%s", "-n", "1", sha1] = .ok out) :
    (∀ ds, SquashMarker (firstLine out) ds →
      SquashedPullReqNum w sha1 = (Atoi ds, [subjectQuery sha1])) ∧
    ((¬ ∃ ds, SquashMarker (firstLine out) ds) →
      SquashedPullReqNum w sha1 = (.err (.text "Does not match"), [subjectQuery sha1])) := by
  constructor
  · intro ds hmk
    obtain ⟨pre, hs, hne, hd⟩ := (squashMarker_iff _ _).1 hmk
    have hf := squash_find_of_marker (firstLine out) pre ds.data hs hne hd
    simp [SquashedPullReqNum, h, split_head, hf, subjectQuery]
  · intro hno
    have hf : squashRe.FindStringSubmatch (firstLine out) = [] := by
      by_contra hne
      obtain ⟨pre, ds, hs, hn, hd⟩ := squash_find_nonempty _ hne
      exact hno ⟨⟨ds⟩, (squashMarker_iff _ _).2 ⟨pre, hs, hn, hd⟩⟩
    simp [SquashedPullReqNum, h, split_head, hf, subjectQuery]
/-! ## The merge tier -/

theorem isWord_of_isHexLower (c : Char) (h : isHexLower c = true) : isWord c = true := by
  simp only [isHexLower, Bool.or_eq_true, decide_eq_true_eq] at h
  simp only [isWord, Bool.or_eq_true, decide_eq_true_eq]
  rcases h with ⟨h1, h2⟩ | h
  · exact Or.inl (Or.inr ⟨h1, le_trans h2 (by decide)⟩)
  · exact Or.inl (Or.inl (Or.inl h))

theorem mergeRe_atoms :
    mergeRe.atoms = .plus isHexLower false :: .chr ' ' :: .plus isHexLower false :: .chr ' ' ::
      ("Merge pull request #".data.map Atom.chr ++
        (.plus isDigit true :: .chr ' ' :: ("from ".data.map Atom.chr ++ []))) := rfl

theorem merge_matchHere (s : List Char) (r : List Char × List Char) :
    matchHere mergeRe.atoms [] s = some r ↔
      ∃ p1 p2 ds rest,
        s = p1 ++ ' ' :: (p2 ++ ' ' ::
          ("Merge pull request #".data ++ (ds ++ ' ' :: ("from ".data ++ rest)))) ∧
        p1 ≠ [] ∧ (∀ c ∈ p1, isHexLower c = true) ∧
        p2 ≠ [] ∧ (∀ c ∈ p2, isHexLower c = true) ∧
        ds ≠ [] ∧ (∀ c ∈ ds, isDigit c = true) ∧ r = (ds, rest) := by
  rw [mergeRe_atoms]
  constructor
  · intro h
    rw [matchHere_plus_chr _ _ _ _ _ _ _ (by decide)] at h
    obtain ⟨p1, s1, rfl, hn1, hh1, h⟩ := h
    rw [matchHere_plus_chr _ _ _ _ _ _ _ (by decide)] at h
    obtain ⟨p2, s2, rfl, hn2, hh2, h⟩ := h
    rw [matchHere_lits] at h
    obtain ⟨s3, rfl, h⟩ := h
    rw [matchHere_plus_chr _ _ _ _ _ _ _ (by decide)] at h
    obtain ⟨ds, s4, rfl, hn3, hh3, h⟩ := h
    rw [matchHere_lits] at h
    obtain ⟨s5, rfl, h⟩ := h
    simp only [matchHere, if_true, Option.some.injEq] at h
    exact ⟨p1, p2, ds, s5, rfl, hn1, hh1, hn2, hh2, hn3, hh3, h.symm⟩
  · rintro ⟨p1, p2, ds, rest, rfl, hn1, hh1, hn2, hh2, hn3, hh3, rfl⟩
    rw [matchHere_plus_chr _ _ _ _ _ _ _ (by decide)]
    refine ⟨p1, _, rfl, hn1, hh1, ?_⟩
    rw [matchHere_plus_chr _ _ _ _ _ _ _ (by decide)]
    refine ⟨p2, _, rfl, hn2, hh2, ?_⟩
    rw [matchHere_lits]
    refine ⟨_, rfl, ?_⟩
    rw [matchHere_plus_chr _ _ _ _ _ _ _ (by decide)]
    refine ⟨ds, _, rfl, hn3, hh3, ?_⟩
    rw [matchHere_lits]
    exact ⟨rest, rfl, by simp [matchHere]⟩

theorem mergeLine_iff (line p1 p2 ds rest : String) :
    MergeLine line p1 p2 ds rest ↔
      line.data = p1.data ++ ' ' :: (p2.data ++ ' ' ::
          ("Merge pull request #".data ++ (ds.data ++ ' ' :: ("from ".data ++ rest.data)))) ∧
        p1.data ≠ [] ∧ (∀ c ∈ p1.data, isHexLower c = true) ∧
        p2.data ≠ [] ∧ (∀ c ∈ p2.data, isHexLower c = true) ∧
        ds.data ≠ [] ∧ (∀ c ∈ ds.data, isDigit c = true) := by
  have hne : ∀ s : String, s ≠ "" ↔ s.data ≠ [] := by
    intro s
    constructor
    · intro h hd; exact h (String.ext hd)
    · rintro h rfl; exact h rfl
  unfold MergeLine
  rw [hne, hne, hne, String.ext_iff]
  simp [String.data_append]

theorem merge_matchString (line : String) :
    mergeRe.MatchString line = true ↔ ∃ p1 p2 ds rest, MergeLine line p1 p2 ds rest := by
  unfold Regexp.MatchString submatchHere
  have hanch : mergeRe.anchored = true := rfl
  simp only [hanch, if_true]
  constructor
  · intro h
    cases hm : matchHere mergeRe.atoms [] line.data with
    | none => rw [hm] at h; simp at h
    | some r =>
      obtain ⟨p1, p2, ds, rest, hs, h1, h2, h3, h4, h5, h6, _⟩ := (merge_matchHere _ _).1 hm
      exact ⟨⟨p1⟩, ⟨p2⟩, ⟨ds⟩, ⟨rest⟩, (mergeLine_iff _ _ _ _ _).2 ⟨hs, h1, h2, h3, h4, h5, h6⟩⟩
  · rintro ⟨p1, p2, ds, rest, hml⟩
    obtain ⟨hs, h1, h2, h3, h4, h5, h6⟩ := (mergeLine_iff _ _ _ _ _).1 hml
    rw [(merge_matchHere _ _).2 ⟨_, _, _, _, hs, h1, h2, h3, h4, h5, h6, rfl⟩]
    rfl

/-- On a merge line the merge pattern captures the digits of the number. -/
theorem merge_find_of_mergeLine (line p1 p2 ds rest : String)
    (h : MergeLine line p1 p2 ds rest) :
    (mergeRe.FindStringSubmatch line)[1]? = some ds := by
  obtain ⟨hs, h1, h2, h3, h4, h5, h6⟩ := (mergeLine_iff _ _ _ _ _).1 h
  unfold Regexp.FindStringSubmatch submatchHere
  have hanch : mergeRe.anchored = true := rfl
  simp only [hanch, if_true]
  rw [(merge_matchHere _ _).2 ⟨_, _, _, _, hs, h1, h2, h3, h4, h5, h6, rfl⟩]
  rfl

/-- On a merge line the parent pattern captures the second parent. -/
theorem parent_find_of_mergeLine (line p1 p2 ds rest : String)
    (h : MergeLine line p1 p2 ds rest) :
    (parentRe.FindStringSubmatch line)[1]? = some p2 := by
  obtain ⟨hs, h1, h2, h3, h4, h5, h6⟩ := (mergeLine_iff _ _ _ _ _).1 h
  have hm : matchHere parentRe.atoms [] line.data = some (p2.data,
      "Merge pull request #".data ++ (ds.data ++ ' ' :: ("from ".data ++ rest.data))) := by
    rw [hs]
    simp only [parentRe]
    rw [matchHere_plus_chr _ _ _ _ _ _ _ (by decide)]
    refine ⟨p1.data, _, rfl, h1, fun c hc => isWord_of_isHexLower c (h2 c hc), ?_⟩
    rw [matchHere_plus_chr _ _ _ _ _ _ _ (by decide)]
    exact ⟨p2.data, _, rfl, h3, fun c hc => isWord_of_isHexLower c (h4 c hc), by simp [matchHere]⟩
  unfold Regexp.FindStringSubmatch
  have hanch : parentRe.anchored = false := rfl
  simp only [hanch, Bool.false_eq_true, if_false]
  rw [findFrom_of_here parentRe.atoms line.data _ (by unfold submatchHere; rw [hm])]
  rfl
theorem findRegexp_ok_iff (arr : List String) (re : Regexp) (line : String) :
    findRegexp arr re = .ok line ↔
      ∃ pre post, arr = pre ++ line :: post ∧ (∀ x ∈ pre, re.MatchString x = false) ∧
        re.MatchString line = true := by
  induction arr with
  | nil => simp [findRegexp]
  | cons a arr ih =>
    rw [findRegexp]
    by_cases ha : re.MatchString a = true
    · simp only [ha, if_true, Except.ok.injEq]
      constructor
      · rintro rfl
        exact ⟨[], arr, rfl, by simp, ha⟩
      · rintro ⟨pre, post, hs, hpre, _⟩
        cases pre with
        | nil => simp at hs; exact hs.1
        | cons b pre =>
          simp at hs
          have := hpre b (by simp)
          rw [← hs.1, ha] at this
          exact Bool.noConfusion this
    · simp only [ha, Bool.false_eq_true, if_false, ih]
      constructor
      · rintro ⟨pre, post, rfl, hpre, hl⟩
        refine ⟨a :: pre, post, rfl, ?_, hl⟩
        intro x hx
        rcases List.mem_cons.1 hx with rfl | hx
        · simpa using ha
        · exact hpre x hx
      · rintro ⟨pre, post, hs, hpre, hl⟩
        cases pre with
        | nil =>
          simp at hs
          rw [hs.1] at ha
          exact absurd hl ha
        | cons b pre =>
          simp at hs
          exact ⟨pre, post, hs.2, fun x hx => hpre x (by simp [hx]), hl⟩

theorem findRegexp_error_iff (arr : List String) (re : Regexp) (e : GoError) :
    findRegexp arr re = .error e ↔
      e = .text "Missing" ∧ ∀ x ∈ arr, re.MatchString x = false := by
  induction arr with
  | nil =>
    simp only [findRegexp, Except.error.injEq]
    constructor
    · rintro rfl; exact ⟨rfl, by simp⟩
    · rintro ⟨rfl, _⟩; rfl
  | cons a arr ih =>
    rw [findRegexp]
    by_cases ha : re.MatchString a = true
    · simp [ha]
    · simp only [ha, Bool.false_eq_true, if_false, ih]
      simp at ha
      simp [ha]

theorem findRegexp_merge_ok_iff (arr : List String) (line : String) :
    findRegexp arr mergeRe = .ok line ↔ FirstMergeLine arr line := by
  rw [findRegexp_ok_iff]
  unfold FirstMergeLine
  constructor
  · rintro ⟨pre, post, hs, hpre, hl⟩
    refine ⟨pre, post, hs, ?_, (merge_matchString line).1 hl⟩
    intro x hx hm
    have := hpre x hx
    rw [(merge_matchString x).2 hm] at this
    exact Bool.noConfusion this
  · rintro ⟨pre, post, hs, hpre, hl⟩
    refine ⟨pre, post, hs, ?_, (merge_matchString line).2 hl⟩
    intro x hx
    rcases hb : mergeRe.MatchString x with _ | _
    · rfl
    · exact absurd ((merge_matchString x).1 hb) (hpre x hx)

/-- What the merge tier returns when the listing has a first merge line. -/
theorem merged_of_first_line (w : World) (sha1 out line p1 p2 ds rest : String)
    (h : w.exec "git" ["log", "--merges", "--pretty=format:%P %s", "--reverse",
      "--ancestry-path", sha1 ++ "..@"] = .ok out)
    (hfirst : FirstMergeLine (Split out '\n') line)
    (hml : MergeLine line p1 p2 ds rest) :
    MergedPullRequestNum w sha1 =
      if (isParent w sha1 p2).1 = true then
        (Atoi ds, mergesQuery sha1 :: (isParent w sha1 p2).2)
      else
        (.err (.text (sha1 ++ " is not parent")), mergesQuery sha1 :: (isParent w sha1 p2).2) := by
  have hf := (findRegexp_merge_ok_iff _ _).2 hfirst
  simp only [MergedPullRequestNum, h, hf, merge_find_of_mergeLine _ _ _ _ _ hml,
    parent_find_of_mergeLine _ _ _ _ _ hml, mergesQuery]

/-- What the merge tier returns when no line of the listing is a merge line. -/
theorem merged_of_no_line (w : World) (sha1 out : String)
    (h : w.exec "git" ["log", "--merges", "--pretty=format:%P %s", "--reverse",
      "--ancestry-path", sha1 ++ "..@"] = .ok out)
    (hno : ¬ ∃ line, FirstMergeLine (Split out '\n') line) :
    MergedPullRequestNum w sha1 = (.err (.text "Missing"), [mergesQuery sha1]) := by
  cases hf : findRegexp (Split out '\n') mergeRe with
  | ok line => exact absurd ⟨line, (findRegexp_merge_ok_iff _ _).1 hf⟩ hno
  | error e =>
    obtain ⟨rfl, _⟩ := (findRegexp_error_iff _ _ _).1 hf
    simp only [MergedPullRequestNum, h, hf, mergesQuery]

theorem merged_of_exec_error (w : World) (sha1 : String) (e : GoError)
    (h : w.exec "git" ["log", "--merges", "--pretty=format:%P %s", "--reverse",
      "--ancestry-path", sha1 ++ "..@"] = .error e) :
    MergedPullRequestNum w sha1 = (.err e, [mergesQuery sha1]) := by
  simp only [MergedPullRequestNum, h, mergesQuery]

theorem squashed_of_exec_error (w : World) (sha1 : String) (e : GoError)
    (h : w.exec "git" ["log", "--pretty=format:%s", "-n", "1", sha1] = .error e) :
    SquashedPullReqNum w sha1 = (.err e, [subjectQuery sha1]) := by
  simp only [SquashedPullReqNum, h, subjectQuery]

theorem splitChars_run (sep : Char) (run s : List Char) (h : ∀ c ∈ run, c ≠ sep) :
    splitChars sep (run ++ sep :: s) = run :: splitChars sep s := by
  induction run with
  | nil => simp [splitChars]
  | cons a run ih =>
    have ha : a ≠ sep := h a (by simp)
    have := ih (fun c hc => h c (by simp [hc]))
    simp [splitChars, ha, this]

/-- On a merge line the second parent is the second space-separated token. -/
theorem second_token_of_mergeLine (line p1 p2 ds rest : String)
    (h : MergeLine line p1 p2 ds rest) : (Split line ' ')[1]? = some p2 := by
  obtain ⟨hs, h1, h2, h3, h4, h5, h6⟩ := (mergeLine_iff _ _ _ _ _).1 h
  have hsp : ∀ l : List Char, (∀ c ∈ l, isHexLower c = true) → ∀ c ∈ l, c ≠ ' ' := by
    intro l hl c hc hcs
    have := hl c hc
    rw [hcs] at this
    revert this; decide
  unfold Split
  rw [hs, splitChars_run _ _ _ (hsp _ h2), splitChars_run _ _ _ (hsp _ h4)]
  simp
theorem atoi_ok_iff (ds : String) (hne : ds ≠ "") (hd : ∀ c ∈ ds.data, isDigit c = true)
    (n : Int) :
    Atoi ds = .ok n ↔ decimalValue ds.data ≤ maxInt ∧ n = (decimalValue ds.data : Int) := by
  have hne1 : ds.data ≠ [] := fun h => hne (String.ext h)
  have := atoi_digits ds.data hne1 hd
  rw [show (⟨ds.data⟩ : String) = ds from rfl] at this
  rw [this]
  by_cases hle : decimalValue ds.data ≤ maxInt
  · simp [hle, eq_comm]
  · simp [hle]

theorem atoi_digits_no_panic (ds : String) (hne : ds ≠ "")
    (hd : ∀ c ∈ ds.data, isDigit c = true) (m : String) : Atoi ds ≠ .panic m := by
  have hne1 : ds.data ≠ [] := fun h => hne (String.ext h)
  have := atoi_digits ds.data hne1 hd
  rw [show (⟨ds.data⟩ : String) = ds from rfl] at this
  rw [this]
  split <;> simp

/-! ## Claims about the squash tier -/

/-- C5, as stated, fails: the subject `Fix bug (#9223372036854775808)` ends
with the marker, yet the squash tier does not return found. -/
theorem squashed_marker_not_always_found :
    ¬ ∀ (w : World) (sha1 out : String),
      w.exec "git" ["log", "--pretty=format:%s", "-n", "1", sha1] = .ok out →
      ((∃ n, (SquashedPullReqNum w sha1).1 = .ok n) ↔
        ∃ ds, SquashMarker (firstLine out) ds) := by
  intro h
  have hmk : ∃ ds, SquashMarker (firstLine "Fix bug (#9223372036854775808)") ds :=
    ⟨"9223372036854775808", "Fix bug ", by decide, by decide, by decide⟩
  obtain ⟨n, hn⟩ := (h (squashWorld "Fix bug (#9223372036854775808)") "abc1234"
    "Fix bug (#9223372036854775808)" rfl).2 hmk
  have hv : (SquashedPullReqNum (squashWorld "Fix bug (#9223372036854775808)") "abc1234").1 =
      .err (.numError "Atoi" "9223372036854775808" "value out of range") := by decide
  rw [hv] at hn
  exact Outcome.noConfusion hn

/-- C5, amended: on the subject line `s` (the first line of the output of the
subject query) the squash tier returns found with `n` exactly when `s` ends
with `(#`, one or more decimal digits and `)`, the decimal value of the digits
is at most `2^63 - 1`, and `n` is that value; it never panics. -/
theorem squashed_found_iff (w : World) (sha1 out : String)
    (h : w.exec "git" ["log", "--pretty=format:%s", "-n", "1", sha1] = .ok out) (n : Int) :
    ((SquashedPullReqNum w sha1).1 = .ok n ↔
      ∃ ds, SquashMarker (firstLine out) ds ∧ decimalValue ds.data ≤ maxInt ∧
        n = (decimalValue ds.data : Int)) ∧
    (∀ m, (SquashedPullReqNum w sha1).1 ≠ .panic m) ∧
    (SquashedPullReqNum w sha1).2 = [subjectQuery sha1] := by
  obtain ⟨hyes, hno⟩ := squashed_of_output w sha1 out h
  by_cases hmk : ∃ ds, SquashMarker (firstLine out) ds
  · obtain ⟨ds, hds⟩ := hmk
    have hds1 := hds
    obtain ⟨pre, _, hne, hd⟩ := hds1
    rw [hyes ds hds]
    refine ⟨⟨fun hn => ⟨ds, hds, (atoi_ok_iff ds hne hd n).1 hn⟩, ?_⟩,
      fun m => atoi_digits_no_panic ds hne hd m, rfl⟩
    rintro ⟨ds1, hds1, hle, hn⟩
    obtain ⟨pre1, _, hne1, hd1⟩ := id hds1
    have := hyes ds1 hds1
    rw [hyes ds hds] at this
    have h2 := congrArg Prod.fst this
    simp only at h2
    rw [h2]
    exact (atoi_ok_iff ds1 hne1 hd1 n).2 ⟨hle, hn⟩
  · rw [hno hmk]
    refine ⟨⟨fun hn => Outcome.noConfusion hn, ?_⟩, fun m => by simp, rfl⟩
    rintro ⟨ds, hds, _⟩
    exact absurd ⟨ds, hds⟩ hmk

/-- Witness of the amended C5: `Fix bug (#42)` gives 42; `Fix bug`, the empty
subject and `(#42) extra text` give not-found. -/
theorem squashed_found_iff_witness :
    (SquashedPullReqNum (squashWorld "Fix bug (#42)") "abc1234").1 = .ok 42 ∧
    (SquashedPullReqNum (squashWorld "Fix bug") "abc1234").1 = .err (.text "Does not match") ∧
    (SquashedPullReqNum (squashWorld "") "abc1234").1 = .err (.text "Does not match") ∧
    (SquashedPullReqNum (squashWorld "(#42) extra text") "abc1234").1 =
      .err (.text "Does not match") :=
  ⟨(squashed_found_iff (squashWorld "Fix bug (#42)") "abc1234" "Fix bug (#42)" rfl 42).1.2
      ⟨"42", ⟨"Fix bug ", by decide, by decide, by decide⟩, by decide, by decide⟩,
    by decide, by decide, by decide⟩
/-! ## Claims about the merge tier -/

/-- C10: every line that the merge pattern matches has the shape
`p1 p2 Merge pull request #ds from ...`, and on it group 1 of the pattern
`\w+ (\w+) ` is `p2`, the second space-separated token of the line, and
group 1 of the merge pattern is the digit run `ds`.  Whenever that line is the
one `findRegexp` picks from the listing, `MergedPullRequestNum` passes exactly
`p2` to the ancestry check (its calls are the merge-history query followed by
the calls of `isParent sha1 p2`, which is the ancestry query for `sha1..p2`
when `p2` does not start with `sha1`), it returns `Atoi ds` when the check
holds and the error `<sha1> is not parent` otherwise, and neither submatch
lookup is out of range: it does not panic. -/
theorem merge_line_extraction (line : String) (hm : mergeRe.MatchString line = true) :
    ∃ p1 p2 ds rest, MergeLine line p1 p2 ds rest ∧
      (parentRe.FindStringSubmatch line)[1]? = some p2 ∧
      (Split line ' ')[1]? = some p2 ∧
      (mergeRe.FindStringSubmatch line)[1]? = some ds ∧
      ∀ (w : World) (sha1 out : String),
        w.exec "git" ["log", "--merges", "--pretty=format:%P %s", "--reverse",
          "--ancestry-path", sha1 ++ "..@"] = .ok out →
        findRegexp (Split out '\n') mergeRe = .ok line →
        (MergedPullRequestNum w sha1).2 = mergesQuery sha1 :: (isParent w sha1 p2).2 ∧
        (HasPrefix p2 sha1 = false →
          (MergedPullRequestNum w sha1).2 = [mergesQuery sha1, ancestryQuery sha1 p2]) ∧
        (MergedPullRequestNum w sha1).1 =
          (if (isParent w sha1 p2).1 = true then Atoi ds
            else .err (.text (sha1 ++ " is not parent"))) ∧
        ∀ m, (MergedPullRequestNum w sha1).1 ≠ .panic m := by
  obtain ⟨p1, p2, ds, rest, hml⟩ := (merge_matchString line).1 hm
  refine ⟨p1, p2, ds, rest, hml, parent_find_of_mergeLine _ _ _ _ _ hml,
    second_token_of_mergeLine _ _ _ _ _ hml, merge_find_of_mergeLine _ _ _ _ _ hml, ?_⟩
  intro w sha1 out hex hf
  rw [merged_of_first_line w sha1 out line p1 p2 ds rest hex
    ((findRegexp_merge_ok_iff _ _).1 hf) hml]
  obtain ⟨_, _, _, _, _, hne, hd⟩ := hml
  have htr : HasPrefix p2 sha1 = false →
      (isParent w sha1 p2).2 = [ancestryQuery sha1 p2] := by
    intro hp
    unfold isParent ancestryQuery
    simp only [hp, Bool.false_eq_true, if_false]
    cases w.exec "git" ["log", "--ancestry-path", sha1 ++ ".." ++ p2] <;> rfl
  by_cases hpar : (isParent w sha1 p2).1 = true
  · rw [if_pos hpar, if_pos hpar]
    exact ⟨rfl, fun hp => by rw [htr hp], rfl, fun m => atoi_digits_no_panic ds hne hd m⟩
  · rw [if_neg hpar, if_neg hpar]
    exact ⟨rfl, fun hp => by rw [htr hp], rfl, fun m => Outcome.noConfusion⟩

/-- Witness of C10 on the line
`aaa bbb Merge pull request #99 from user/branch`, the only line of the
listing of `oneMergeWorld`: the second parent `bbb` goes to the ancestry
check for `def5678` and the number 99 is returned. -/
theorem merge_line_extraction_witness :
    mergeRe.MatchString "aaa bbb Merge pull request #99 from user/branch" = true ∧
    (parentRe.FindStringSubmatch "aaa bbb Merge pull request #99 from user/branch")[1]? =
      some "bbb" ∧
    (mergeRe.FindStringSubmatch "aaa bbb Merge pull request #99 from user/branch")[1]? =
      some "99" ∧
    MergedPullRequestNum oneMergeWorld "def5678" =
      (.ok 99, [mergesQuery "def5678", ancestryQuery "def5678" "bbb"]) ∧
    ∃ p1 p2 ds rest,
      MergeLine "aaa bbb Merge pull request #99 from user/branch" p1 p2 ds rest ∧
      (Split "aaa bbb Merge pull request #99 from user/branch" ' ')[1]? = some p2 ∧
      (MergedPullRequestNum oneMergeWorld "def5678").2 =
        mergesQuery "def5678" :: (isParent oneMergeWorld "def5678" p2).2 ∧
      (MergedPullRequestNum oneMergeWorld "def5678").1 =
        (if (isParent oneMergeWorld "def5678" p2).1 = true then Atoi ds
          else .err (.text ("def5678" ++ " is not parent"))) := by
  refine ⟨by decide, by decide, by decide, by decide, ?_⟩
  obtain ⟨p1, p2, ds, rest, h1, _, h3, _, hprog⟩ :=
    merge_line_extraction "aaa bbb Merge pull request #99 from user/branch" (by decide)
  obtain ⟨ht, _, hr, _⟩ := hprog oneMergeWorld "def5678"
    "aaa bbb Merge pull request #99 from user/branch" rfl rfl
  exact ⟨p1, p2, ds, rest, h1, h3, ht, hr⟩

/-- C3, as stated, fails: the listing of `twoMergesWorld` has two matching
lines; the commit is an ancestor of the second parent of the second line
(ancestry verification passes there) but not of that of the first, and the
merge tier returns not-found instead of the number 2 of the second line. -/
theorem merged_later_line_not_tried :
    FirstMergeLine
      (Split "aaa bbb Merge pull request #1 from u/x\nccc ddd Merge pull request #2 from u/y" '\n')
      "aaa bbb Merge pull request #1 from u/x" ∧
    MergeLine "ccc ddd Merge pull request #2 from u/y" "ccc" "ddd" "2" "u/y" ∧
    (isParent twoMergesWorld "abc1234" "bbb").1 = false ∧
    (isParent twoMergesWorld "abc1234" "ddd").1 = true ∧
    (MergedPullRequestNum twoMergesWorld "abc1234").1 = .err (.text "abc1234 is not parent") := by
  refine ⟨⟨[], ["ccc ddd Merge pull request #2 from u/y"], by decide, by simp,
    "aaa", "bbb", "1", "u/x", ?_⟩, ?_, by decide, by decide, by decide⟩
  · exact ⟨by decide, by decide, by decide, by decide, by decide, by decide, by decide⟩
  · exact ⟨by decide, by decide, by decide, by decide, by decide, by decide, by decide⟩

/-- C3, amended: the merge tier examines only the earliest line of the listing
that matches the pattern; it returns found with `n` exactly when the commit
passes the ancestry verification against that line's second parent, the value
of that line's digits is at most `2^63 - 1` and `n` is that value; whatever
lines follow, a failed verification of the earliest line gives not-found. -/
theorem merged_selects_first_merge_line (w : World) (sha1 out line p1 p2 ds rest : String)
    (h : w.exec "git" ["log", "--merges", "--pretty=format:%P %s", "--reverse",
      "--ancestry-path", sha1 ++ "..@"] = .ok out)
    (hfirst : FirstMergeLine (Split out '\n') line)
    (hml : MergeLine line p1 p2 ds rest) (n : Int) :
    (MergedPullRequestNum w sha1).1 = .ok n ↔
      (isParent w sha1 p2).1 = true ∧ decimalValue ds.data ≤ maxInt ∧
        n = (decimalValue ds.data : Int) := by
  rw [merged_of_first_line w sha1 out line p1 p2 ds rest h hfirst hml]
  obtain ⟨_, _, _, _, _, hne, hd⟩ := hml
  by_cases hp : (isParent w sha1 p2).1 = true
  · simp only [hp, if_true, true_and]
    exact atoi_ok_iff ds hne hd n
  · simp [hp]

/-- Witness of the amended C3: in `oneMergeWorld` the commit `def5678` is an
ancestor of the second parent of the only merge line, and 99 is returned. -/
theorem merged_selects_first_merge_line_witness :
    (MergedPullRequestNum oneMergeWorld "def5678").1 = .ok 99 :=
  (merged_selects_first_merge_line oneMergeWorld "def5678"
    "aaa bbb Merge pull request #99 from user/branch"
    "aaa bbb Merge pull request #99 from user/branch" "aaa" "bbb" "99" "user/branch" rfl
    ⟨[], [], by decide, by simp, "aaa", "bbb", "99", "user/branch",
      by decide, by decide, by decide, by decide, by decide, by decide, by decide⟩
    ⟨by decide, by decide, by decide, by decide, by decide, by decide, by decide⟩ 99).2
    ⟨by decide, by decide, by decide⟩

/-- C4: the merge tier returns a number only if the ancestry check of the
commit against the second parent of the merge line it matched holds; when the
matched line fits the pattern but the check fails, it returns the error
`<sha1> is not parent` despite the textual match. -/
theorem merged_requires_ancestry (w : World) (sha1 : String) :
    (∀ n, (MergedPullRequestNum w sha1).1 = .ok n →
      ∃ out line p1 p2 ds rest,
        w.exec "git" ["log", "--merges", "--pretty=format:%P %s", "--reverse",
          "--ancestry-path", sha1 ++ "..@"] = .ok out ∧
        FirstMergeLine (Split out '\n') line ∧ MergeLine line p1 p2 ds rest ∧
        (isParent w sha1 p2).1 = true) ∧
    (∀ out line p1 p2 ds rest,
      w.exec "git" ["log", "--merges", "--pretty=format:%P %s", "--reverse",
        "--ancestry-path", sha1 ++ "..@"] = .ok out →
      FirstMergeLine (Split out '\n') line → MergeLine line p1 p2 ds rest →
      (isParent w sha1 p2).1 = false →
      (MergedPullRequestNum w sha1).1 = .err (.text (sha1 ++ " is not parent"))) := by
  constructor
  · intro n hn
    cases hex : w.exec "git" ["log", "--merges", "--pretty=format:%P %s", "--reverse",
        "--ancestry-path", sha1 ++ "..@"] with
    | error e =>
      rw [merged_of_exec_error w sha1 e hex] at hn
      exact Outcome.noConfusion hn
    | ok out =>
      by_cases hl : ∃ line, FirstMergeLine (Split out '\n') line
      · obtain ⟨line, hfirst⟩ := hl
        obtain ⟨_, _, _, _, p1, p2, ds, rest, hml⟩ := id hfirst
        refine ⟨out, line, p1, p2, ds, rest, rfl, hfirst, hml, ?_⟩
        rw [merged_of_first_line w sha1 out line p1 p2 ds rest hex hfirst hml] at hn
        by_cases hp : (isParent w sha1 p2).1 = true
        · exact hp
        · simp [hp] at hn
      · rw [merged_of_no_line w sha1 out hex hl] at hn
        exact Outcome.noConfusion hn
  · intro out line p1 p2 ds rest hex hfirst hml hp
    rw [merged_of_first_line w sha1 out line p1 p2 ds rest hex hfirst hml]
    simp [hp]

/-- Witness of C4 in `twoMergesWorld`: the first merge line matches, the
commit `abc1234` is not an ancestor of its second parent `bbb`, and the tier
returns the error. -/
theorem merged_requires_ancestry_witness :
    (MergedPullRequestNum twoMergesWorld "abc1234").1 = .err (.text "abc1234 is not parent") :=
  (merged_requires_ancestry twoMergesWorld "abc1234").2
    "aaa bbb Merge pull request #1 from u/x\nccc ddd Merge pull request #2 from u/y"
    "aaa bbb Merge pull request #1 from u/x" "aaa" "bbb" "1" "u/x" rfl
    ⟨[], ["ccc ddd Merge pull request #2 from u/y"], by decide, by simp,
      "aaa", "bbb", "1", "u/x",
      by decide, by decide, by decide, by decide, by decide, by decide, by decide⟩
    ⟨by decide, by decide, by decide, by decide, by decide, by decide, by decide⟩
    (by decide)
/-- C9, as stated, fails: on the subject `Fix bug (#0)` the squash tier
returns found with the number 0. -/
theorem found_number_not_always_positive :
    ¬ ∀ (w : World) (sha1 : String) (n : Int),
      (SquashedPullReqNum w sha1).1 = .ok n ∨ (MergedPullRequestNum w sha1).1 = .ok n →
      1 ≤ n := by
  intro h
  have h0 : (SquashedPullReqNum (squashWorld "Fix bug (#0)") "abc1234").1 = .ok 0 := by decide
  have := h (squashWorld "Fix bug (#0)") "abc1234" 0 (Or.inl h0)
  omega

/-- C9, amended: every number that the squash tier or the merge tier returns
as found is a non-negative integer, at most `2^63 - 1`. -/
theorem found_number_bounds (w : World) (sha1 : String) (n : Int)
    (h : (SquashedPullReqNum w sha1).1 = .ok n ∨ (MergedPullRequestNum w sha1).1 = .ok n) :
    0 ≤ n ∧ n ≤ (maxInt : Int) := by
  have key : ∀ ds : String, ds ≠ "" → (∀ c ∈ ds.data, isDigit c = true) →
      Atoi ds = .ok n → 0 ≤ n ∧ n ≤ (maxInt : Int) := by
    intro ds hne hd ha
    obtain ⟨hle, rfl⟩ := (atoi_ok_iff ds hne hd n).1 ha
    exact ⟨Int.natCast_nonneg _, Int.ofNat_le.2 hle⟩
  rcases h with h | h
  · cases hex : w.exec "git" ["log", "--pretty=format:%s", "-n", "1", sha1] with
    | error e =>
      rw [squashed_of_exec_error w sha1 e hex] at h
      exact Outcome.noConfusion h
    | ok out =>
      obtain ⟨hyes, hno⟩ := squashed_of_output w sha1 out hex
      by_cases hmk : ∃ ds, SquashMarker (firstLine out) ds
      · obtain ⟨ds, hds⟩ := hmk
        rw [hyes ds hds] at h
        obtain ⟨_, _, hne, hd⟩ := hds
        exact key ds hne hd h
      · rw [hno hmk] at h
        exact Outcome.noConfusion h
  · cases hex : w.exec "git" ["log", "--merges", "--pretty=format:%P %s", "--reverse",
        "--ancestry-path", sha1 ++ "..@"] with
    | error e =>
      rw [merged_of_exec_error w sha1 e hex] at h
      exact Outcome.noConfusion h
    | ok out =>
      by_cases hl : ∃ line, FirstMergeLine (Split out '\n') line
      · obtain ⟨line, hfirst⟩ := hl
        obtain ⟨_, _, _, _, p1, p2, ds, rest, hml⟩ := id hfirst
        rw [merged_of_first_line w sha1 out line p1 p2 ds rest hex hfirst hml] at h
        obtain ⟨_, _, _, _, _, hne, hd⟩ := hml
        by_cases hp : (isParent w sha1 p2).1 = true
        · simp only [hp, if_true] at h
          exact key ds hne hd h
        · simp [hp] at h
      · rw [merged_of_no_line w sha1 out hex hl] at h
        exact Outcome.noConfusion h

/-- Witness of the amended C9 on the subject `Fix bug (#0)`. -/
theorem found_number_bounds_witness :
    (SquashedPullReqNum (squashWorld "Fix bug (#0)") "abc1234").1 = .ok 0 ∧
    (0 : Int) ≤ 0 ∧ (0 : Int) ≤ (maxInt : Int) :=
  ⟨by decide,
    found_number_bounds (squashWorld "Fix bug (#0)") "abc1234" 0 (Or.inl (by decide))⟩

/-! ## Claims about the orchestrator -/

theorem searchText_eq (prj : Project) (sha1 : String) :
    sha1 ++ " is:merged repo:" ++ prj.String = searchText prj sha1 := by
  simp [searchText, Project.String, String.append_assoc]

theorem squashed_trace (w : World) (sha1 : String) :
    (SquashedPullReqNum w sha1).2 = [subjectQuery sha1] := by
  cases hex : w.exec "git" ["log", "--pretty=format:%s", "-n", "1", sha1] with
  | error e => rw [squashed_of_exec_error w sha1 e hex]
  | ok out =>
    obtain ⟨hyes, hno⟩ := squashed_of_output w sha1 out hex
    by_cases hmk : ∃ ds, SquashMarker (firstLine out) ds
    · obtain ⟨ds, hds⟩ := hmk
      rw [hyes ds hds]
    · rw [hno hmk]

theorem isParent_trace (w : World) (parent child : String) :
    (isParent w parent child).2 = [] ∨ (isParent w parent child).2 = [ancestryQuery parent child] := by
  unfold isParent ancestryQuery
  by_cases hp : HasPrefix child parent = true
  · simp [hp]
  · right
    simp only [hp, Bool.false_eq_true, if_false]
    cases w.exec "git" ["log", "--ancestry-path", parent ++ ".." ++ child] <;> rfl

theorem merged_trace (w : World) (sha1 : String) :
    (MergedPullRequestNum w sha1).2 = [mergesQuery sha1] ∨
      ∃ second, (MergedPullRequestNum w sha1).2 = [mergesQuery sha1, ancestryQuery sha1 second] := by
  cases hex : w.exec "git" ["log", "--merges", "--pretty=format:%P %s", "--reverse",
      "--ancestry-path", sha1 ++ "..@"] with
  | error e => rw [merged_of_exec_error w sha1 e hex]; exact Or.inl rfl
  | ok out =>
    by_cases hl : ∃ line, FirstMergeLine (Split out '\n') line
    · obtain ⟨line, hfirst⟩ := hl
      obtain ⟨_, _, _, _, p1, p2, ds, rest, hml⟩ := id hfirst
      rw [merged_of_first_line w sha1 out line p1 p2 ds rest hex hfirst hml]
      rcases isParent_trace w sha1 p2 with ht | ht
      · left; split <;> simp [ht]
      · right; exact ⟨p2, by split <;> simp [ht]⟩
    · rw [merged_of_no_line w sha1 out hex hl]; exact Or.inl rfl
theorem pullRequestNumber_of_squash_ok (w : World) (prj : Project) (sha1 : String)
    (hlen : 7 ≤ len sha1) (n : Int) (h : (SquashedPullReqNum w sha1).1 = .ok n) :
    PullRequestNumber w prj sha1 = (.ok n, [subjectQuery sha1]) := by
  have ht := squashed_trace w sha1
  rcases hs : SquashedPullReqNum w sha1 with ⟨o1, t1⟩
  rw [hs] at h ht
  simp only at h ht
  subst h ht
  simp [PullRequestNumber, hs, Nat.not_lt.2 hlen]

theorem pullRequestNumber_of_merge_ok (w : World) (prj : Project) (sha1 : String)
    (hlen : 7 ≤ len sha1) (e : GoError) (n : Int)
    (h1 : (SquashedPullReqNum w sha1).1 = .err e)
    (h2 : (MergedPullRequestNum w sha1).1 = .ok n) :
    PullRequestNumber w prj sha1 = (.ok n, subjectQuery sha1 :: (MergedPullRequestNum w sha1).2) := by
  have ht := squashed_trace w sha1
  rcases hs : SquashedPullReqNum w sha1 with ⟨o1, t1⟩
  rcases hm : MergedPullRequestNum w sha1 with ⟨o2, t2⟩
  rw [hs] at h1 ht
  rw [hm] at h2
  simp only at h1 h2 ht
  subst h1 h2 ht
  simp [PullRequestNumber, hs, hm, Nat.not_lt.2 hlen]

/-- The remote tier, as run after both local tiers returned an error. -/
theorem pullRequestNumber_of_both_err (w : World) (prj : Project) (sha1 : String)
    (hlen : 7 ≤ len sha1) (e1 e2 : GoError)
    (h1 : (SquashedPullReqNum w sha1).1 = .err e1)
    (h2 : (MergedPullRequestNum w sha1).1 = .err e2) :
    PullRequestNumber w prj sha1 =
      match w.apiClient with
      | .error e => (.err e, subjectQuery sha1 :: (MergedPullRequestNum w sha1).2 ++ [.apiClient])
      | .ok _ =>
        (match w.searchIssues (searchText prj sha1) with
          | .error e => .err e
          | .ok [] => .err (.text "Pull Request is not found")
          | .ok (⟨none⟩ :: _) => .panic "nil pointer dereference"
          | .ok (⟨some n⟩ :: _) => .ok n,
          subjectQuery sha1 :: (MergedPullRequestNum w sha1).2 ++
            [.apiClient, .searchIssues (searchText prj sha1)]) := by
  have ht := squashed_trace w sha1
  rcases hs : SquashedPullReqNum w sha1 with ⟨o1, t1⟩
  rcases hm : MergedPullRequestNum w sha1 with ⟨o2, t2⟩
  rw [hs] at h1 ht
  rw [hm] at h2
  simp only at h1 h2 ht
  subst h1 h2 ht
  simp only [PullRequestNumber, hs, hm, Nat.not_lt.2 hlen, if_false, searchText_eq]
  cases w.apiClient with
  | error e => simp
  | ok u =>
    simp only
    cases w.searchIssues (searchText prj sha1) with
    | error e => simp
    | ok issues =>
      cases issues with
      | nil => simp
      | cons i more =>
        obtain ⟨num⟩ := i
        cases num <;> simp
theorem merged_trace_local (w : World) (sha1 : String) :
    ∀ c ∈ (MergedPullRequestNum w sha1).2, c.isRemote = false := by
  rcases merged_trace w sha1 with h | ⟨second, h⟩ <;> rw [h] <;>
    simp [mergesQuery, ancestryQuery, Call.isRemote]

theorem full_trace_nodup (w : World) (prj : Project) (sha1 : String) :
    (subjectQuery sha1 :: (MergedPullRequestNum w sha1).2 ++
      [Call.apiClient, Call.searchIssues (searchText prj sha1)]).Nodup := by
  rcases merged_trace w sha1 with h | ⟨second, h⟩ <;> rw [h] <;>
    simp [subjectQuery, mergesQuery, ancestryQuery]

theorem pullRequestNumber_trace_initial (w : World) (prj : Project) (sha1 : String) :
    (PullRequestNumber w prj sha1).2 <+:
      subjectQuery sha1 :: (MergedPullRequestNum w sha1).2 ++
        [Call.apiClient, Call.searchIssues (searchText prj sha1)] := by
  by_cases hlen : len sha1 < 7
  · simp [PullRequestNumber, hlen]
  · have hlen1 : 7 ≤ len sha1 := Nat.le_of_not_lt hlen
    have ht := squashed_trace w sha1
    rcases hs : SquashedPullReqNum w sha1 with ⟨o1, t1⟩
    rw [hs] at ht
    simp only at ht
    subst ht
    have hpre1 : [subjectQuery sha1] <+:
        subjectQuery sha1 :: (MergedPullRequestNum w sha1).2 ++
          [Call.apiClient, Call.searchIssues (searchText prj sha1)] :=
      ⟨_, rfl⟩
    have hpre2 : subjectQuery sha1 :: (MergedPullRequestNum w sha1).2 <+:
        subjectQuery sha1 :: (MergedPullRequestNum w sha1).2 ++
          [Call.apiClient, Call.searchIssues (searchText prj sha1)] :=
      ⟨_, rfl⟩
    cases o1 with
    | ok n => simp [PullRequestNumber, hs, hlen]
    | panic m => simp [PullRequestNumber, hs, hlen]
    | err e1 =>
      rcases hm : MergedPullRequestNum w sha1 with ⟨o2, t2⟩
      rw [hm] at hpre2
      cases o2 with
      | ok n => simp [PullRequestNumber, hs, hm, hlen]
      | panic m => simp [PullRequestNumber, hs, hm, hlen]
      | err e2 =>
        have := pullRequestNumber_of_both_err w prj sha1 hlen1 e1 e2 (by rw [hs]) (by rw [hm])
        rw [this, hm]
        cases w.apiClient with
        | error e =>
          exact ⟨[Call.searchIssues (searchText prj sha1)], by simp⟩
        | ok u => exact List.prefix_refl _

/-- C2: for a commit identifier of at least seven bytes, `PullRequestNumber`
returns the number of the squash tier when that tier finds one, having issued
the subject query only; otherwise the number of the merge tier when that tier
finds one, having issued the calls of the two local tiers and no remote call;
and no external call is issued more than once. -/
theorem pullRequestNumber_first_success (w : World) (prj : Project) (sha1 : String)
    (hlen : 7 ≤ len sha1) :
    (∀ n, (SquashedPullReqNum w sha1).1 = .ok n →
      PullRequestNumber w prj sha1 = (.ok n, [subjectQuery sha1])) ∧
    (∀ e n, (SquashedPullReqNum w sha1).1 = .err e →
      (MergedPullRequestNum w sha1).1 = .ok n →
      (PullRequestNumber w prj sha1).1 = .ok n ∧
      (PullRequestNumber w prj sha1).2 = subjectQuery sha1 :: (MergedPullRequestNum w sha1).2 ∧
      ∀ c ∈ (PullRequestNumber w prj sha1).2, c.isRemote = false) ∧
    (∀ c, (PullRequestNumber w prj sha1).2.count c ≤ 1) := by
  refine ⟨fun n h => pullRequestNumber_of_squash_ok w prj sha1 hlen n h, ?_, ?_⟩
  · intro e n h1 h2
    rw [pullRequestNumber_of_merge_ok w prj sha1 hlen e n h1 h2]
    refine ⟨rfl, rfl, ?_⟩
    intro c hc
    rcases List.mem_cons.1 hc with rfl | hc
    · rfl
    · exact merged_trace_local w sha1 c hc
  · intro c
    exact List.nodup_iff_count_le_one.1
      ((full_trace_nodup w prj sha1).sublist (pullRequestNumber_trace_initial w prj sha1).sublist) c

/-- Witness of C2: the subject `Add feature (#7)` of `abc1234` gives 7 after
the subject query alone; `def5678`, without a squash marker and an ancestor of
the second parent of the merge of pull request 99, gives 99. -/
theorem pullRequestNumber_first_success_witness :
    PullRequestNumber (squashWorld "Add feature (#7)") ⟨"owner", "name"⟩ "abc1234" =
      (.ok 7, [subjectQuery "abc1234"]) ∧
    (PullRequestNumber oneMergeWorld ⟨"owner", "name"⟩ "def5678").1 = .ok 99 :=
  ⟨(pullRequestNumber_first_success (squashWorld "Add feature (#7)") ⟨"owner", "name"⟩
      "abc1234" (by decide)).1 7 (by decide),
    ((pullRequestNumber_first_success oneMergeWorld ⟨"owner", "name"⟩ "def5678"
      (by decide)).2.1 (.external "exit status 128") 99 (by decide) (by decide)).1⟩

/-- C8, as stated, fails: in the world where every collaborator fails both
local tiers report not-found for `abc1234`, and no search is issued, because
the construction of the API client fails first. -/
theorem search_not_always_issued :
    ¬ ∀ (w : World) (prj : Project) (sha1 : String) (e1 e2 : GoError),
      7 ≤ len sha1 → (SquashedPullReqNum w sha1).1 = .err e1 →
      (MergedPullRequestNum w sha1).1 = .err e2 →
      Call.searchIssues (searchText prj sha1) ∈ (PullRequestNumber w prj sha1).2 := by
  intro h
  have := h deadWorld ⟨"owner", "name"⟩ "abc1234" (.external "exit status 128")
    (.external "exit status 128") (by decide) (by decide) (by decide)
  revert this
  decide

/-- C8, amended: for a commit identifier of at least seven bytes on which both
local tiers return an error, `PullRequestNumber` builds the API client; when
that fails its error is returned unchanged and no search is issued; when it
succeeds exactly one search is issued, with the text
`<commit> is:merged repo:<owner>/<name>`, a search error is returned
unchanged, an empty result gives the error `Pull Request is not found`, and a
first result that carries a number gives that number. -/
theorem pullRequestNumber_remote_fallback (w : World) (prj : Project) (sha1 : String)
    (e1 e2 : GoError) (hlen : 7 ≤ len sha1)
    (h1 : (SquashedPullReqNum w sha1).1 = .err e1)
    (h2 : (MergedPullRequestNum w sha1).1 = .err e2) :
    (∀ e, w.apiClient = .error e →
      (PullRequestNumber w prj sha1).1 = .err e ∧
      (PullRequestNumber w prj sha1).2.countP Call.isSearch = 0) ∧
    (w.apiClient = .ok () →
      (PullRequestNumber w prj sha1).2 =
        subjectQuery sha1 :: (MergedPullRequestNum w sha1).2 ++
          [Call.apiClient,
            Call.searchIssues (sha1 ++ " is:merged repo:" ++ (prj.Owner ++ "/" ++ prj.Name))] ∧
      (PullRequestNumber w prj sha1).2.countP Call.isSearch = 1 ∧
      (∀ e, w.searchIssues (searchText prj sha1) = .error e →
        (PullRequestNumber w prj sha1).1 = .err e) ∧
      (w.searchIssues (searchText prj sha1) = .ok [] →
        (PullRequestNumber w prj sha1).1 = .err (.text "Pull Request is not found")) ∧
      (∀ n more, w.searchIssues (searchText prj sha1) = .ok (⟨some n⟩ :: more) →
        (PullRequestNumber w prj sha1).1 = .ok n)) := by
  have hloc : (MergedPullRequestNum w sha1).2.countP Call.isSearch = 0 := by
    rcases merged_trace w sha1 with h | ⟨second, h⟩ <;> rw [h] <;>
      simp [mergesQuery, ancestryQuery, Call.isSearch]
  rw [pullRequestNumber_of_both_err w prj sha1 hlen e1 e2 h1 h2]
  constructor
  · intro e he
    rw [he]
    simp [List.countP_cons, List.countP_append, hloc, subjectQuery, Call.isSearch]
  · intro he
    rw [he]
    refine ⟨by simp [searchText, Project.String, String.append_assoc], ?_, ?_, ?_, ?_⟩
    · simp [List.countP_cons, List.countP_append, hloc, subjectQuery, Call.isSearch]
    · intro e hq; rw [hq]
    · intro hq; rw [hq]
    · intro n more hq; rw [hq]
/-- Witness of the amended C8: in a world where both local tiers fail and the
search for `abc1234 is:merged repo:owner/name` returns no issue, the result is
the error `Pull Request is not found`; where it returns the issues 12 and 5,
the result is 12. -/
theorem pullRequestNumber_remote_fallback_witness :
    (PullRequestNumber (scripted [] true [("abc1234 is:merged repo:owner/name", [])])
      ⟨"owner", "name"⟩ "abc1234").1 = .err (.text "Pull Request is not found") ∧
    (PullRequestNumber
      (scripted [] true [("abc1234 is:merged repo:owner/name", [⟨some 12⟩, ⟨some 5⟩])])
      ⟨"owner", "name"⟩ "abc1234").1 = .ok 12 :=
  ⟨((pullRequestNumber_remote_fallback
      (scripted [] true [("abc1234 is:merged repo:owner/name", [])]) ⟨"owner", "name"⟩
      "abc1234" (.external "exit status 128") (.external "exit status 128")
      (by decide) (by decide) (by decide)).2 rfl).2.2.2.1 rfl,
    ((pullRequestNumber_remote_fallback
      (scripted [] true [("abc1234 is:merged repo:owner/name", [⟨some 12⟩, ⟨some 5⟩])])
      ⟨"owner", "name"⟩ "abc1234" (.external "exit status 128") (.external "exit status 128")
      (by decide) (by decide) (by decide)).2 rfl).2.2.2.2 12 [⟨some 5⟩] rfl⟩
end Whichpr
